import Mathlib

/-!
Shallow embedding of the lodestone / magnet-rs analytical field-kernel core,
with theorems checking the natural-language specification against the code.

Modelling conventions:
* `f64` values are embedded as real numbers (`ℝ`).  Where a computation can
  produce a non-finite double (NaN or ±∞) we track it with `FV := Option ℝ`:
  `some r` is a finite double of ideal value `r`, `none` is a non-finite one.
  Division yields `none` on a zero denominator (f64 gives ±∞/NaN there),
  `ln` yields `none` on a non-positive argument (f64 gives -∞/NaN), and every
  arithmetic operation propagates `none` (IEEE non-finite values never become
  finite again under +, -, *, /, ln of the kernels' expressions).
* Fallible Rust functions returning `Result<T, MagnetError>` are embedded as
  `Except MagnetError T`.
* Loops are embedded as folds / fuel-indexed recursion.
-/

noncomputable section

namespace Lodestone

open Real

/-! ## Global constants (src/src/lib.rs) -/

/-- Embedded `PI` -/
def PI : ℝ := Real.pi

/-- Embedded `M2_PI = PI * 2.0` -/
def M2_PI : ℝ := PI * 2

/-- Embedded `M4_PI = PI * 4.0` -/
def M4_PI : ℝ := PI * 4

/-- Embedded `I_2PI = 1.0 / M2_PI` -/
def I_2PI : ℝ := 1 / M2_PI

/-- Embedded `I_4PI = 1.0 / M4_PI` -/
def I_4PI : ℝ := 1 / M4_PI

/-- Embedded `FP_CUTOFF = 1e-6`, vector-alignment cutoff -/
def FP_CUTOFF : ℝ := 1e-6

/-- Embedded `ERR_CUTOFF = 1e-12`, relative-error cutoff -/
def ERR_CUTOFF : ℝ := 1e-12

/-- Embedded `f64::MAX` -/
def F64_MAX : ℝ := (2 - 2 ^ (-(52 : ℤ))) * 2 ^ (1023 : ℕ)

/-! ## Doubles with non-finite tracking -/

/-- A double: `some r` finite with value `r`, `none` non-finite (NaN/±∞). -/
abbrev FV := Option ℝ

/-- Addition on doubles; non-finite operands stay non-finite. -/
def fadd : FV → FV → FV
  | some a, some b => some (a + b)
  | _, _ => none

/-- Subtraction on doubles. -/
def fsub : FV → FV → FV
  | some a, some b => some (a - b)
  | _, _ => none

/-- Multiplication on doubles (`∞ * 0 = NaN`, hence `none` absorbs). -/
def fmul : FV → FV → FV
  | some a, some b => some (a * b)
  | _, _ => none

/-- Division on doubles: a zero denominator gives a non-finite result. -/
def fdiv : FV → FV → FV
  | some a, some b => if b = 0 then none else some (a / b)
  | _, _ => none

/-- Embedded `f64::ln`: non-finite (-∞ or NaN) unless the argument is positive. -/
def fln : FV → FV
  | some a => if 0 < a then some (Real.log a) else none
  | none => none

/-! ## atan2 (IEEE `f64::atan2` on finite arguments) -/

/-- Four-quadrant arctangent, `atan2 y x`, matching `f64::atan2` on finite
arguments (in particular `atan2 0 0 = 0`). -/
def atan2 (y x : ℝ) : ℝ :=
  if 0 < x then arctan (y / x)
  else if x < 0 ∧ 0 ≤ y then arctan (y / x) + PI
  else if x < 0 ∧ y < 0 then arctan (y / x) - PI
  else if x = 0 ∧ 0 < y then PI / 2
  else if x = 0 ∧ y < 0 then -(PI / 2)
  else 0

/-- Embedded `atan2` lifted to doubles; always finite on finite arguments. -/
def fatan2 : FV → FV → FV
  | some y, some x => some (atan2 y x)
  | _, _ => none

/-! ## Points (src/src/points/points2.rs, polarpoints.rs) -/

/-- Embedded `Point2`: an evaluation point / geometric point (finite coordinates). -/
structure Point2 where
  x : ℝ
  y : ℝ

/-- A field vector whose components may be non-finite. -/
structure FPoint2 where
  x : FV
  y : FV

/-- Embedded `Point2` subtraction. -/
def psub (a b : Point2) : Point2 := ⟨a.x - b.x, a.y - b.y⟩

/-- Embedded `Point2` addition. -/
def padd (a b : Point2) : Point2 := ⟨a.x + b.x, a.y + b.y⟩

/-- Embedded `Point2::scale`. -/
def pscale (a : Point2) (s : ℝ) : Point2 := ⟨a.x * s, a.y * s⟩

/-- The zero field vector (`Point2::zero()` used as a field accumulator). -/
def fzeroP : FPoint2 := ⟨some 0, some 0⟩

/-- Embedded `+=` on field vectors. -/
def faddP (a b : FPoint2) : FPoint2 := ⟨fadd a.x b.x, fadd a.y b.y⟩

/-- Embedded `PolarPoint` with possibly non-finite components (used for field values). -/
structure FPolarPoint where
  rho : FV
  phi : FV

/-- Embedded `PolarPoint` of a geometric point. -/
structure PolarPoint where
  rho : ℝ
  phi : ℝ

/-! ## Rotations

`rotate_point2` / `rotate_tuple2` (src/src/points/rotation_2d.rs),
`rotate_around_origin` (src/src/utils/conversions.rs) and the `Point2::rotate`
method all use the same counter-clockwise rotation formula
`(x cos α - y sin α, x sin α + y cos α)`. -/

/-- Embedded `Point2::rotate` / `rotate_point2`: counter-clockwise rotation by `alpha`. -/
def rotatePoint (p : Point2) (alpha : ℝ) : Point2 :=
  ⟨p.x * Real.cos alpha - p.y * Real.sin alpha,
   p.x * Real.sin alpha + p.y * Real.cos alpha⟩

/-- Embedded `rotate_around_origin` (src/src/utils/conversions.rs lines 73-83). -/
def rotate_around_origin (p : Point2) (phi : ℝ) : Point2 :=
  ⟨p.x * Real.cos phi - p.y * Real.sin phi,
   p.x * Real.sin phi + p.y * Real.cos phi⟩

/-- The same rotation acting on a (possibly non-finite) field vector. -/
def rotateField (f : FPoint2) (alpha : ℝ) : FPoint2 :=
  ⟨fsub (fmul f.x (some (Real.cos alpha))) (fmul f.y (some (Real.sin alpha))),
   fadd (fmul f.x (some (Real.sin alpha))) (fmul f.y (some (Real.cos alpha)))⟩

/-! ## Angle (src/src/utils/conversions.rs and lodestone_core version) -/

/-- Embedded `Angle` enum: a value tagged as degrees or radians. -/
inductive Angle where
  | Degrees (v : ℝ)
  | Radians (v : ℝ)

/-- Embedded `Angle::to_degrees` (`f64::to_degrees` is `v * (180 / π)`). -/
def Angle.to_degrees : Angle → ℝ
  | .Radians v => v * (180 / PI)
  | .Degrees v => v

/-- Embedded `Angle::to_radians` (`f64::to_radians` is `v * (π / 180)`). -/
def Angle.to_radians : Angle → ℝ
  | .Degrees v => v * (PI / 180)
  | .Radians v => v

/-! ## nearly_equal (lodestone_core/src/utils/comparison.rs) -/

open Classical in
/-- Embedded `nearly_equal`: float comparison with relative tolerance `ERR_CUTOFF`. -/
def nearly_equal (a b : ℝ) : Prop :=
  if a = b then True
  else if a = 0 ∨ b = 0 ∨ |a - b| < ERR_CUTOFF then |a - b| < ERR_CUTOFF
  else |a - b| / min (|a| + |b|) F64_MAX < ERR_CUTOFF

theorem nearly_equal_of_eq {a b : ℝ} (h : a = b) : nearly_equal a b := by
  simp [nearly_equal, h]

/-! ## Claims C7 and C8 -/

/-- C7: for every 2D point `p` and every angle `a`, rotating `p`
counter-clockwise by `a` about the origin and then by `-a` returns `p`
within `ERR_CUTOFF`-scaled tolerance, component-wise by `nearly_equal`. -/
theorem rotate_roundtrip_nearly_equal (p : Point2) (a : ℝ) :
    nearly_equal (rotate_around_origin (rotate_around_origin p a) (-a)).x p.x ∧
    nearly_equal (rotate_around_origin (rotate_around_origin p a) (-a)).y p.y := by
  constructor
  · apply nearly_equal_of_eq
    simp only [rotate_around_origin, Real.cos_neg, Real.sin_neg]
    linear_combination p.x * (Real.sin_sq_add_cos_sq a)
  · apply nearly_equal_of_eq
    simp only [rotate_around_origin, Real.cos_neg, Real.sin_neg]
    linear_combination p.y * (Real.sin_sq_add_cos_sq a)

/-- C8: angle conversion is total and leaves a value already in the target
unit unchanged: `Angle::Radians(x).to_radians() == x`,
`Angle::Degrees(x).to_degrees() == x`, and re-converting the radian result
(wrapped back as radians) returns the same value. -/
theorem angle_conversion_identity_and_idempotent :
    (∀ x : ℝ, (Angle.Radians x).to_radians = x) ∧
    (∀ x : ℝ, (Angle.Degrees x).to_degrees = x) ∧
    (∀ a : Angle, (Angle.Radians a.to_radians).to_radians = a.to_radians) := by
  refine ⟨fun x => rfl, fun x => rfl, fun a => rfl⟩

/-! ## Bulirsch generalized complete elliptic integral
(src/src/magnets/magnet3d/bulirsch.rs)

The `while` loop has no iteration cap in the source; it is embedded with a
fuel parameter.  The `NAN` sentinel returned for `kc == 0` is modelled as
`none`; the remaining arithmetic is over `ℝ`. -/

/-- Embedded `ERRTOL = 1e-6` (bulirsch.rs line 9). -/
def ERRTOL : ℝ := 1e-6

/-- The mutable state of `cel`'s iteration; `g` holds the value of the
variable `g` at the loop test (the previous `em`). -/
structure CelState where
  k : ℝ
  kk : ℝ
  pp : ℝ
  cc : ℝ
  ss : ℝ
  em : ℝ
  g : ℝ

/-- The `while` condition `(g - k).abs() > g * ERRTOL`. -/
def celGuard (s : CelState) : Prop := s.g * ERRTOL < |s.g - s.k|

/-- One iteration of the `while` body. -/
def celStep (s : CelState) : CelState :=
  let k := 2 * Real.sqrt s.kk
  let kk := k * s.em
  let f := s.cc
  let cc := s.cc + s.ss / s.pp
  let g := kk / s.pp
  let ss := 2 * (s.ss + f * g)
  let pp := s.pp + g
  let g2 := s.em
  let em := s.em + k
  ⟨k, kk, pp, cc, ss, em, g2⟩

open Classical in
/-- The `while` loop with fuel. -/
def celLoop : ℕ → CelState → CelState
  | 0, s => s
  | n + 1, s => if celGuard s then celLoop n (celStep s) else s

open Classical in
/-- The state just before the `while` loop (all assignments of `cel` from
`let mut k = kc.abs()` down to `em += k`). -/
def celInit (kc p c s : ℝ) : CelState :=
  let k := |kc|
  let pp := p
  let cc := c
  let ss := s
  let em : ℝ := 1
  let kk := k
  let st :=
    if 0 < p then
      let pp := Real.sqrt p
      let ss := s / pp
      (pp, cc, ss)
    else
      let f := kc ^ 2
      let q := 1 - f
      let g := 1 - pp
      let f := f - pp
      let q := q * (ss - c * pp)
      let pp := Real.sqrt (f / g)
      let cc := (c - ss) / g
      let ss := -q / (g * g * pp) + cc * pp
      (pp, cc, ss)
  let pp := st.1
  let cc := st.2.1
  let ss := st.2.2
  let f := cc
  let cc := cc + ss / pp
  let g := k / pp
  let ss := 2 * (ss + f * g)
  let pp := pp + g
  let g := em
  let em := em + k
  ⟨k, kk, pp, cc, ss, em, g⟩

/-- The closed-form return expression after the loop. -/
def celResult (s : CelState) : ℝ :=
  (PI / 2) * (s.ss + s.cc * s.em) / (s.em * (s.em + s.pp))

open Classical in
/-- Embedded `cel(kc, p, c, s)`: `NAN` (modelled `none`) when `kc.abs() == 0.0`,
otherwise the iteration's result. -/
def cel (fuel : ℕ) (kc p c s : ℝ) : FV :=
  if |kc| = 0 then none
  else some (celResult (celLoop fuel (celInit kc p c s)))

theorem celLoop_of_not_guard {s : CelState} (h : ¬ celGuard s) :
    ∀ fuel, celLoop fuel s = s := by
  intro fuel
  cases fuel with
  | zero => rfl
  | succ n => simp [celLoop, h]

/-- C4: for every `p`, `c`, `s` (and any iteration budget), `cel(0, p, c, s)`
returns the NaN sentinel; the computation terminates without panicking
(the embedding is a total function). -/
theorem cel_kc_zero_nan (fuel : ℕ) (p c s : ℝ) : cel fuel 0 p c s = none := by
  simp [cel]

/-- C5: `cel(1, 1, 1, 1)` evaluates exactly to `π/2`: the loop's convergence
test is already satisfied on entry (the loop leaves the initial state
untouched, whatever the iteration budget), and the closed-form return
expression equals `π/2` exactly. -/
theorem cel_unit_modulus_exact (fuel : ℕ) :
    celLoop fuel (celInit 1 1 1 1) = celInit 1 1 1 1 ∧
      cel fuel 1 1 1 1 = some (PI / 2) := by
  have hinit : celInit 1 1 1 1 = ⟨1, 1, 2, 2, 4, 2, 1⟩ := by
    simp [celInit, Real.sqrt_one]
    norm_num
  have hguard : ¬ celGuard (celInit 1 1 1 1) := by
    rw [hinit]
    simp [celGuard, ERRTOL]
    norm_num
  refine ⟨celLoop_of_not_guard hguard fuel, ?_⟩
  rw [cel, if_neg (by norm_num), celLoop_of_not_guard hguard, hinit]
  simp [celResult]
  norm_num

/-! ## Regular polygon vertex generation (src/src/magnets/magnet2d/polygon.rs)
and the error type (src/src/error.rs) -/

/-- Embedded `MagnetError` (only the variant relevant to the kernels is populated;
the others concern the excluded config/parsing layer). -/
inductive MagnetError where
  | PolygonSideError
  | Other

/-- Embedded `PointVec2`: a struct of coordinate vectors. -/
structure PointVec2 where
  x : List ℝ
  y : List ℝ

/-- Embedded `PolyDimension`: apothem, circumscribed radius, or side length. -/
inductive PolyDimension where
  | Apothem (v : ℝ)
  | Radius (v : ℝ)
  | Side (v : ℝ)

/-- Embedded `get_radius` (polygon.rs lines 117-123). -/
def get_radius (num_vertices : ℕ) (param : PolyDimension) : ℝ :=
  match param with
  | .Apothem v => v / Real.cos (PI / (num_vertices : ℝ))
  | .Side v => v / 2 / Real.sin (PI / (num_vertices : ℝ))
  | .Radius v => v

/-- Embedded `offset_angle` (polygon.rs lines 126-132). -/
def offset_angle (num_vertices : ℕ) (alpha : Angle) : Angle :=
  if num_vertices % 2 = 0 then
    .Radians (PI / (num_vertices : ℝ) + alpha.to_radians)
  else
    .Radians (PI / (num_vertices : ℝ) + PI + alpha.to_radians)

/-- Embedded `regular_vertices` (polygon.rs lines 137-167). -/
def regular_vertices (num_vertices : ℕ) (center : Point2) (param : PolyDimension)
    (alpha : Angle) : Except MagnetError PointVec2 :=
  if num_vertices < 3 then .error .PolygonSideError
  else
    let offset := (offset_angle num_vertices alpha).to_radians
    let radius := get_radius num_vertices param
    let xv := (List.range num_vertices).map fun (k : ℕ) =>
      center.x + radius * Real.sin (2 * PI * (k : ℝ) / (num_vertices : ℝ) + offset)
    let yv := (List.range num_vertices).map fun (k : ℕ) =>
      center.y + radius * Real.cos (2 * PI * (k : ℝ) / (num_vertices : ℝ) + offset)
    .ok ⟨xv, yv⟩

/-- C3: for fewer than 3 vertices the generator returns
`MagnetError::PolygonSideError` for every center, size parameterization and
orientation (it never panics — the embedding is total — and never clamps);
for `count ≥ 3` it returns `Ok` with exactly `count` vertices. -/
theorem regular_vertices_side_threshold (n : ℕ) (center : Point2)
    (param : PolyDimension) (alpha : Angle) :
    (n < 3 → regular_vertices n center param alpha = .error .PolygonSideError) ∧
    (3 ≤ n → ∃ v, regular_vertices n center param alpha = .ok v ∧
      v.x.length = n ∧ v.y.length = n) := by
  constructor
  · intro h
    simp [regular_vertices, h]
  · intro h
    rw [regular_vertices, if_neg (by omega)]
    exact ⟨_, rfl, by simp only [List.length_map, List.length_range],
      by simp only [List.length_map, List.length_range]⟩

/-- Witness for C3 at concrete inputs `n = 2` and `n = 4`. -/
theorem regular_vertices_side_threshold_witness :
    (regular_vertices 2 ⟨0, 0⟩ (.Side 1) (.Degrees 0) = .error .PolygonSideError) ∧
    (∃ v, regular_vertices 4 ⟨0, 0⟩ (.Side 2) (.Radians 0) = .ok v ∧
      v.x.length = 4 ∧ v.y.length = 4) :=
  ⟨(regular_vertices_side_threshold 2 ⟨0, 0⟩ (.Side 1) (.Degrees 0)).1 (by norm_num),
   (regular_vertices_side_threshold 4 ⟨0, 0⟩ (.Side 2) (.Radians 0)).2 (by norm_num)⟩

/-! ## Polygon decomposition into boundary line segments
(lodestone_core/src/magnets/magnet2d/line.rs) -/

/-- Embedded `Line`: a boundary line-charge segment. -/
structure Line where
  length : ℝ
  center : Point2
  beta : Angle
  kr : ℝ

/-- Embedded `Point2::magnitude` (`(x² + y²).sqrt()`). -/
def magnitudeP (p : Point2) : ℝ := Real.sqrt (p.x ^ 2 + p.y ^ 2)

/-- Embedded `unit_norm_vector` (line.rs lines 105-110): the (scaled) normal
`(-Δy, Δx)/‖Δ‖` and the distance between the points. -/
def unit_norm_vector (start_point end_point : Point2) : Point2 × ℝ :=
  let delta := psub end_point start_point
  let norm : Point2 := ⟨-delta.y, delta.x⟩
  let length := magnitudeP delta
  (pscale norm (1 / length), length)

/-- Embedded `line_center` (line.rs lines 113-115): the segment midpoint. -/
def line_center (vertex_1 vertex_2 : Point2) : Point2 :=
  pscale (padd vertex_1 vertex_2) (1 / 2)

/-- Embedded `get_line_beta` (line.rs lines 123-125). -/
def get_line_beta (unit_norm : Point2) : Angle :=
  .Radians (atan2 unit_norm.y unit_norm.x)

/-- One iteration of the `generate_line_array` loop (line.rs lines 72-93),
acting on the accumulator `(line_array, area, centroid)`. -/
def lineArrayStep (v : PointVec2) (jx jy : ℝ) (acc : List Line × ℝ × Point2)
    (i : ℕ) : List Line × ℝ × Point2 :=
  let n := v.x.length
  let j := (i + 1) % n
  let weight := (v.x.getD j 0 + v.x.getD i 0) * (v.y.getD j 0 - v.y.getD i 0)
  let cx := acc.2.2.x + (v.x.getD j 0 + v.x.getD i 0) * weight
  let cy := acc.2.2.y + (v.y.getD j 0 + v.y.getD i 0) * weight
  let area := acc.2.1 + weight
  let start_point : Point2 := ⟨v.x.getD i 0, v.y.getD i 0⟩
  let end_point : Point2 := ⟨v.x.getD j 0, v.y.getD j 0⟩
  let un := unit_norm_vector start_point end_point
  let center := line_center start_point end_point
  let beta := get_line_beta un.1
  let kr := jx * un.1.y - jy * un.1.x
  (acc.1 ++ [⟨un.2, center, beta, kr⟩], area, ⟨cx, cy⟩)

/-- Embedded `generate_line_array` (line.rs lines 63-102). -/
def generate_line_array (v : PointVec2) (jx jy : ℝ) : List Line × ℝ × Point2 :=
  let n := v.x.length
  let res := (List.range n).foldl (lineArrayStep v jx jy) ([], 0, ⟨0, 0⟩)
  let centroid := pscale res.2.2 (1 / res.2.1 / 3)
  (res.1, res.2.1 * (1 / 2), centroid)

/-- The boundary segment the loop builds for index `i`: midpoint center,
vertex distance as length, `beta = atan2(n.y, n.x)` and
`kr = jx * n.y - jy * n.x`, with `n = (-Δy, Δx)/‖Δ‖` the left-perpendicular
unit normal of the segment from vertex `i` to vertex `(i+1) mod n`. -/
def segLine (v : PointVec2) (jx jy : ℝ) (i : ℕ) : Line :=
  let n := v.x.length
  let j := (i + 1) % n
  let start_point : Point2 := ⟨v.x.getD i 0, v.y.getD i 0⟩
  let end_point : Point2 := ⟨v.x.getD j 0, v.y.getD j 0⟩
  let un := unit_norm_vector start_point end_point
  ⟨un.2, line_center start_point end_point, get_line_beta un.1,
    jx * un.1.y - jy * un.1.x⟩

theorem lineArrayStep_fst (v : PointVec2) (jx jy : ℝ)
    (acc : List Line × ℝ × Point2) (i : ℕ) :
    (lineArrayStep v jx jy acc i).1 = acc.1 ++ [segLine v jx jy i] := rfl

theorem foldl_lineArrayStep_fst (v : PointVec2) (jx jy : ℝ) :
    ∀ (l : List ℕ) (acc : List Line × ℝ × Point2),
      (l.foldl (lineArrayStep v jx jy) acc).1 = acc.1 ++ l.map (segLine v jx jy)
  | [], acc => by simp
  | i :: rest, acc => by
      rw [List.foldl_cons, foldl_lineArrayStep_fst v jx jy rest _,
        lineArrayStep_fst]
      simp

/-- The spec's notion of an outward unit normal for edge `i` of a (convex)
vertex loop: a unit vector perpendicular to the edge pointing away from the
vertex mean. -/
def IsOutwardUnitNormal (v : PointVec2) (i : ℕ) (nrm : Point2) : Prop :=
  let n := v.x.length
  let j := (i + 1) % n
  let dx := v.x.getD j 0 - v.x.getD i 0
  let dy := v.y.getD j 0 - v.y.getD i 0
  let midx := (v.x.getD i 0 + v.x.getD j 0) / 2
  let midy := (v.y.getD i 0 + v.y.getD j 0) / 2
  let meanx := v.x.sum / (n : ℝ)
  let meany := v.y.sum / (n : ℝ)
  nrm.x * dx + nrm.y * dy = 0 ∧ nrm.x ^ 2 + nrm.y ^ 2 = 1 ∧
    0 < nrm.x * (midx - meanx) + nrm.y * (midy - meany)

/-- Claim C6 as stated: for every vertex loop, every segment's `kr` equals
`jx * normal.y - jy * normal.x` at the segment's *outward* unit normal. -/
def claimC6Stated : Prop :=
  ∀ (v : PointVec2) (jx jy : ℝ) (i : ℕ) (nrm : Point2) (L : Line),
    IsOutwardUnitNormal v i nrm →
    (generate_line_array v jx jy).1[i]? = some L →
    L.kr = jx * nrm.y - jy * nrm.x

/-- The counter-clockwise unit-magnitude square `(1,1),(-1,1),(-1,-1),(1,-1)`. -/
def ccwSquare : PointVec2 := ⟨[1, -1, -1, 1], [1, 1, -1, -1]⟩

/-- C6 counterexample: for the counter-clockwise square with `jx = 1, jy = 0`,
segment 0 (the top edge) has outward unit normal `(0, 1)`, so the claim
demands `kr = 1`, but `generate_line_array` computes `kr = -1` (its normal
`(-Δy, Δx)/‖Δ‖ = (0, -1)` points inward on counter-clockwise loops). -/
theorem generate_line_array_outward_normal_counterexample : ¬ claimC6Stated := by
  intro h
  have hline : (generate_line_array ccwSquare 1 0).1[0]? =
      some (segLine ccwSquare 1 0 0) := by
    have hfold := foldl_lineArrayStep_fst ccwSquare 1 0
      (List.range ccwSquare.x.length) ([], 0, ⟨0, 0⟩)
    simp only [generate_line_array, hfold]
    simp [ccwSquare, List.range_succ]
  have hnrm : IsOutwardUnitNormal ccwSquare 0 ⟨0, 1⟩ := by
    refine ⟨by simp [ccwSquare], by norm_num, ?_⟩
    simp [ccwSquare]
  have hkr := h ccwSquare 1 0 0 ⟨0, 1⟩ (segLine ccwSquare 1 0 0) hnrm hline
  have h4 : Real.sqrt 4 = 2 := by
    rw [show (4 : ℝ) = 2 ^ 2 by norm_num]
    exact Real.sqrt_sq (by norm_num)
  have hval : (segLine ccwSquare 1 0 0).kr = -1 := by
    simp only [segLine, unit_norm_vector, magnitudeP, psub, pscale, ccwSquare]
    norm_num [h4]
  rw [hval] at hkr
  norm_num at hkr

/-- C6 amended: for every vertex loop and magnetization `(jx, jy)`,
`generate_line_array` produces exactly one boundary `Line` per consecutive
vertex pair (wrapping the last back to the first): the `i`-th line has
length the distance between vertices `i` and `(i+1) mod n`, center their
midpoint, `beta = atan2(n.y, n.x)` and `kr = jx * n.y - jy * n.x`, where
`n = (-Δy, Δx)/‖Δ‖` is the left-perpendicular unit normal of the segment —
the outward normal only when the loop is ordered clockwise. -/
theorem generate_line_array_segments (v : PointVec2) (jx jy : ℝ) :
    (generate_line_array v jx jy).1 =
      (List.range v.x.length).map (segLine v jx jy) ∧
    (generate_line_array v jx jy).1.length = v.x.length := by
  have hfold := foldl_lineArrayStep_fst v jx jy (List.range v.x.length)
    ([], 0, ⟨0, 0⟩)
  constructor
  · simpa [generate_line_array] using hfold
  · simp [generate_line_array, hfold]

/-! ## Magnet descriptors (src/src/magnets/magnet2d/rectangle.rs, circle.rs,
polygon.rs; boundary segments reuse `Line`) -/

/-- Embedded `Rectangle`: half-sizes `a = width/2`, `b = height/2`, precomputed
Cartesian magnetization `jx = jr cos φ`, `jy = jr sin φ`. -/
structure Rectangle where
  width : ℝ
  height : ℝ
  center : Point2
  alpha : Angle
  jr : ℝ
  phi : Angle
  a : ℝ
  b : ℝ
  jx : ℝ
  jy : ℝ

/-- Embedded `Circle` magnet descriptor. -/
structure Circle where
  radius : ℝ
  center : Point2
  alpha : Angle
  jr : ℝ
  phi : Angle
  jx : ℝ
  jy : ℝ

/-- Embedded `Polygon` magnet descriptor (the `line_array` is the derived, cached
decomposition of the boundary). -/
structure Polygon where
  center : Point2
  alpha : Angle
  jr : ℝ
  phi : Angle
  jx : ℝ
  jy : ℝ
  vertices : PointVec2
  num_vertices : ℕ
  line_array : List Line

/-! ## Rectangle field kernel (src/src/magnets/magnet2d/rectangle_field.rs) -/

/-- Embedded `field_in_x_for_x_mag` (lines 78-102): `atan2` terms, always finite. -/
def field_in_x_for_x_mag (x y a b j : ℝ) : Except MagnetError FV :=
  let b_plus_y := b + y
  let b_minus_y := b - y
  let b_plus_y_sq := b_plus_y ^ 2
  let b_minus_y_sq := b_minus_y ^ 2
  let x_sq := x ^ 2
  let a_sq := a ^ 2
  let a2 := 2 * a
  let xsq_minus_a_sq := x_sq - a_sq
  let top_1 := a2 * b_plus_y
  let bottom_1 := xsq_minus_a_sq + b_plus_y_sq
  let top_2 := a2 * (b - y)
  let bottom_2 := xsq_minus_a_sq + b_minus_y_sq
  .ok (some (j * I_2PI * (atan2 top_1 bottom_1 + atan2 top_2 bottom_2)))

/-- Embedded `field_in_y_for_x_mag` (lines 104-120): `ln` of ratios of squared
distances; non-finite on the corner singularities, never an `Err`. -/
def field_in_y_for_x_mag (x y a b j : ℝ) : Except MagnetError FV :=
  let x_plus_a_sq := (x + a) ^ 2
  let x_minus_a_sq := (x - a) ^ 2
  let y_plus_b_sq := (y + b) ^ 2
  let y_minus_b_sq := (y - b) ^ 2
  let top_1 := x_minus_a_sq + y_minus_b_sq
  let bottom_1 := x_plus_a_sq + y_minus_b_sq
  let top_2 := x_minus_a_sq + y_plus_b_sq
  let bottom_2 := x_plus_a_sq + y_plus_b_sq
  .ok (fmul (some (-j * I_4PI))
    (fsub (fln (fdiv (some top_1) (some bottom_1)))
      (fln (fdiv (some top_2) (some bottom_2)))))

/-- Embedded `field_in_x_for_y_mag` (lines 122-137). -/
def field_in_x_for_y_mag (x y a b j : ℝ) : Except MagnetError FV :=
  let x_plus_a_sq := (x + a) ^ 2
  let x_minus_a_sq := (x - a) ^ 2
  let y_plus_b_sq := (y + b) ^ 2
  let y_mins_b_sq := (y - b) ^ 2
  let top_1 := x_plus_a_sq + y_mins_b_sq
  let bottom_1 := x_plus_a_sq + y_plus_b_sq
  let top_2 := x_minus_a_sq + y_mins_b_sq
  let bottom_2 := x_minus_a_sq + y_plus_b_sq
  .ok (fmul (some (j * I_4PI))
    (fsub (fln (fdiv (some top_1) (some bottom_1)))
      (fln (fdiv (some top_2) (some bottom_2)))))

/-- Embedded `field_in_y_for_y_mag` (lines 139-160). -/
def field_in_y_for_y_mag (x y a b j : ℝ) : Except MagnetError FV :=
  let x_plus_a := x + a
  let x_minus_a := x - a
  let x_plus_a_sq := x_plus_a ^ 2
  let x_minus_a_sq := x_minus_a ^ 2
  let y_sq := y ^ 2
  let b_sq := b ^ 2
  let b2 := 2 * b
  let top_1 := b2 * x_plus_a
  let bottom_1 := x_plus_a_sq + y_sq - b_sq
  let top_2 := b2 * x_minus_a
  let bottom_2 := x_minus_a_sq + y_sq - b_sq
  .ok (some (j * I_2PI * (atan2 top_1 bottom_1 - atan2 top_2 bottom_2)))

/-- Embedded `magnetic_field_x` (lines 61-67); `?` is early `Err` propagation. -/
def magnetic_field_x (magnet : Rectangle) (point : Point2) :
    Except MagnetError FPoint2 :=
  match field_in_x_for_x_mag point.x point.y magnet.a magnet.b magnet.jx with
  | .error e => .error e
  | .ok fx =>
    match field_in_y_for_x_mag point.x point.y magnet.a magnet.b magnet.jx with
    | .error e => .error e
    | .ok fy => .ok ⟨fx, fy⟩

/-- Embedded `magnetic_field_y` (lines 69-76). -/
def magnetic_field_y (magnet : Rectangle) (point : Point2) :
    Except MagnetError FPoint2 :=
  match field_in_x_for_y_mag point.x point.y magnet.a magnet.b magnet.jy with
  | .error e => .error e
  | .ok fx =>
    match field_in_y_for_y_mag point.x point.y magnet.a magnet.b magnet.jy with
    | .error e => .error e
    | .ok fy => .ok ⟨fx, fy⟩

open Classical in
/-- Embedded `get_field_rectangle` (lines 21-58). -/
def get_field_rectangle (magnet : Rectangle) (point : Point2) :
    Except MagnetError FPoint2 :=
  let local_point := psub point magnet.center
  let local_point :=
    if FP_CUTOFF < |magnet.alpha.to_radians| then
      rotatePoint local_point magnet.alpha.to_radians
    else local_point
  let field := faddP fzeroP
    (if FP_CUTOFF < |magnet.jx / magnet.jr| then
      match magnetic_field_x magnet local_point with
      | .ok value => value
      | .error _ => ⟨some 0, some 0⟩
    else ⟨some 0, some 0⟩)
  let field := faddP field
    (if FP_CUTOFF < |magnet.jy / magnet.jr| then
      match magnetic_field_y magnet local_point with
      | .ok value => value
      | .error _ => ⟨some 0, some 0⟩
    else ⟨some 0, some 0⟩)
  let field :=
    if FP_CUTOFF < |magnet.alpha.to_radians| then
      rotateField field (-magnet.alpha.to_radians)
    else field
  .ok field

/-! ## Circle field kernel (src/src/magnets/magnet2d/circle_field.rs) -/

/-- Embedded `cart2pol` (src/src/utils/conversions.rs lines 32-36). -/
def cart2pol (point : Point2) : PolarPoint :=
  ⟨magnitudeP point, atan2 point.y point.x⟩

/-- Embedded `vector_pol2cart` (conversions.rs lines 46-57), on field values. -/
def vector_pol2cart (vector : FPolarPoint) (phi : ℝ) : FPoint2 :=
  let cos_phi := Real.cos phi
  let sin_phi := Real.sin phi
  ⟨fsub (fmul vector.rho (some cos_phi)) (fmul vector.phi (some sin_phi)),
   fadd (fmul vector.rho (some sin_phi)) (fmul vector.phi (some cos_phi))⟩

/-- Embedded `get_polar_field_circle` (circle_field.rs lines 18-28); the division by
`point.rho` is non-finite at the magnet center. -/
def get_polar_field_circle (magnet : Circle) (point : PolarPoint) :
    Except MagnetError FPolarPoint :=
  let ratio := fdiv (some magnet.radius) (some point.rho)
  let prefac := fdiv (fmul (some magnet.jr) (fmul ratio ratio)) (some 2)
  let b_rho := fmul prefac (some (Real.cos point.phi))
  let b_phi := fmul prefac (some (Real.sin point.phi))
  .ok ⟨b_rho, b_phi⟩

open Classical in
/-- Embedded `get_field_circle` (circle_field.rs lines 30-44); `?` propagates `Err`. -/
def get_field_circle (magnet : Circle) (point : Point2) :
    Except MagnetError FPoint2 :=
  let polar_val := cart2pol (psub point magnet.center)
  let local_polar : PolarPoint :=
    ⟨polar_val.rho - 0, polar_val.phi - magnet.phi.to_radians⟩
  match get_polar_field_circle magnet local_polar with
  | .error e => .error e
  | .ok polar_field =>
    let field := vector_pol2cart polar_field polar_val.phi
    let field :=
      if FP_CUTOFF < |magnet.alpha.to_radians| then
        rotateField field (M2_PI - magnet.alpha.to_radians)
      else field
    .ok field

/-! ## Line / sheet kernel (src/src/magnets/magnet2d/line_field.rs and
lodestone_core/src/magnets/magnet2d/line.rs) -/

/-- Embedded `sheet_field` (line_field.rs lines 10-24). -/
def sheet_field (x y h kr : ℝ) : Except MagnetError FPoint2 :=
  let x_sq := x ^ 2
  let y_sq := y ^ 2
  let h_sq := h ^ 2
  let prefac := kr / M4_PI
  let y_plus_h := y + h
  let y_minus_h := y - h
  let bx := fmul (some prefac)
    (fln (fdiv (some (x_sq + y_minus_h ^ 2)) (some (x_sq + y_plus_h ^ 2))))
  let b_y := some (2 * prefac * atan2 (2 * h * x) (x_sq + y_sq - h_sq))
  .ok ⟨bx, b_y⟩

open Classical in
/-- Truncation toward zero, as Rust's `as`-free float remainder uses. -/
def truncR (x : ℝ) : ℤ := if 0 ≤ x then ⌊x⌋ else ⌈x⌉

/-- Rust's `%` on doubles: remainder with the sign of the dividend,
`a - b * trunc(a / b)`. -/
def rustRem (a b : ℝ) : ℝ := a - b * (truncR (a / b) : ℝ)

open Classical in
/-- Embedded `get_field_line` (lodestone_core line.rs lines 127-161). -/
def get_field_line (magnet : Line) (point : Point2) :
    Except MagnetError FPoint2 :=
  let local_point := psub point magnet.center
  let rotation_flag :=
    FP_CUTOFF < |rustRem magnet.beta.to_radians PI| ∧ FP_CUTOFF < |magnet.kr|
  let local_point :=
    if rotation_flag then
      rotatePoint local_point (M2_PI - magnet.beta.to_radians)
    else local_point
  let field := faddP fzeroP
    (if FP_CUTOFF < |magnet.kr| then
      match sheet_field local_point.x local_point.y (magnet.length / 2)
          magnet.kr with
      | .ok value => value
      | .error _ => ⟨some 0, some 0⟩
    else ⟨some 0, some 0⟩)
  let field :=
    if rotation_flag then rotateField field magnet.beta.to_radians else field
  .ok field

/-! ## Polygon field kernel (src/src/magnets/magnet2d/polygon.rs) -/

/-- The `for line in &magnet.line_array` accumulation loop of
`get_field_polygon`, with `?`-propagation of errors. -/
def polyLoop (point : Point2) : List Line → FPoint2 → Except MagnetError FPoint2
  | [], field => .ok field
  | l :: rest, field =>
    match get_field_line l point with
    | .ok value => polyLoop point rest (faddP field value)
    | .error e => .error e

/-- Embedded `get_field_polygon` (polygon.rs lines 183-203); the local-frame transform
is commented out in the source, so the loop runs on the global point. -/
def get_field_polygon (magnet : Polygon) (point : Point2) :
    Except MagnetError FPoint2 :=
  polyLoop point magnet.line_array fzeroP

theorem get_field_line_ok (magnet : Line) (point : Point2) :
    ∃ f, get_field_line magnet point = .ok f := ⟨_, rfl⟩

theorem polyLoop_ok (point : Point2) :
    ∀ (lines : List Line) (field : FPoint2),
      ∃ f, polyLoop point lines field = .ok f
  | [], field => ⟨field, rfl⟩
  | l :: rest, field => by
      obtain ⟨v, hv⟩ := get_field_line_ok l point
      obtain ⟨f, hf⟩ := polyLoop_ok point rest (faddP field v)
      exact ⟨f, by rw [polyLoop, hv]; exact hf⟩

/-- C10: every public 2D field function (Rectangle, Circle, Polygon, Line)
returns the `Ok` variant for every magnet and every evaluation point: the
per-term component functions never construct an `Err`, so the error branch
of each kernel's `Result` is unreachable and singular evaluations surface
only as non-finite (or zeroed) components inside `Ok`. -/
theorem two_dim_field_functions_always_ok :
    (∀ (m : Rectangle) (p : Point2), ∃ f, get_field_rectangle m p = .ok f) ∧
    (∀ (m : Circle) (p : Point2), ∃ f, get_field_circle m p = .ok f) ∧
    (∀ (m : Polygon) (p : Point2), ∃ f, get_field_polygon m p = .ok f) ∧
    (∀ (m : Line) (p : Point2), ∃ f, get_field_line m p = .ok f) := by
  refine ⟨fun m p => ⟨_, rfl⟩, fun m p => ⟨_, rfl⟩, ?_, fun m p => ⟨_, rfl⟩⟩
  intro m p
  exact polyLoop_ok p m.line_array fzeroP

/-! ## C2: the rectangle kernel's singularity catch is dead code

`get_field_rectangle` matches on `magnetic_field_x/y` and substitutes zero on
`Err` ("The error will be due to a singularity, so bind local_field to 0.0"),
but `field_in_*` always return `Ok`, so an evaluation on a corner drives the
`ln` ratio's denominator to zero and the non-finite value is returned inside
`Ok`. -/

/-- A square magnet `a = b = 1`, centered at the origin, axis-aligned,
magnetized in `x` (`jr = 1`, `phi = 0`, `jx = 1`, `jy = 0`). -/
def rectCorner : Rectangle := ⟨2, 2, ⟨0, 0⟩, .Radians 0, 1, .Radians 0, 1, 1, 1, 0⟩

/-- The magnet's top-left corner, on the `ln` singular locus. -/
def ptCorner : Point2 := ⟨-1, 1⟩

/-- C2 (code bug witness): evaluated exactly on the corner `(-1, 1)`, the
returned field is `Ok` with a non-finite `y` component (`bottom_1 = 0` drives
the `ln` argument's denominator to zero), not a zero substitution: the
`Err` catch never fires because the component functions never error. -/
theorem get_field_rectangle_corner_nonfinite :
    get_field_rectangle rectCorner ptCorner = .ok ⟨some (1 / 8), none⟩ := by
  have h1 : atan2 4 4 = π / 4 := by
    rw [atan2, if_pos (by norm_num)]
    norm_num [Real.arctan_one]
  have h2 : atan2 0 0 = 0 := by
    rw [atan2]
    norm_num
  simp only [get_field_rectangle, magnetic_field_x, magnetic_field_y,
    field_in_x_for_x_mag, field_in_y_for_x_mag, field_in_x_for_y_mag,
    field_in_y_for_y_mag, rectCorner, ptCorner, Angle.to_radians, psub,
    fzeroP, faddP, fadd, fmul, fsub, fdiv, fln, Except.bind]
  norm_num [FP_CUTOFF, I_2PI, M2_PI, PI, h1, h2]
  field_simp
  ring

/-! ## C1: the local-frame transform, per kernel -/

open Classical in
/-- The rectangle kernel's local-frame field: the guarded sum of the x- and
y-magnetization closed forms (each active only when the normalized
magnetization component exceeds `FP_CUTOFF`). -/
def rectLocalField (m : Rectangle) (lp : Point2) : FPoint2 :=
  faddP (faddP fzeroP
    (if FP_CUTOFF < |m.jx / m.jr| then
      match magnetic_field_x m lp with
      | .ok value => value
      | .error _ => ⟨some 0, some 0⟩
    else ⟨some 0, some 0⟩))
    (if FP_CUTOFF < |m.jy / m.jr| then
      match magnetic_field_y m lp with
      | .ok value => value
      | .error _ => ⟨some 0, some 0⟩
    else ⟨some 0, some 0⟩)

open Classical in
/-- What `get_field_rectangle` actually does around the local evaluation:
translate by `-center`, rotate the point by `+alpha` when
`|alpha| > FP_CUTOFF`, and rotate the field by `-alpha` under the same
condition. -/
def rect_transform_actual (m : Rectangle) (p : Point2) : FPoint2 :=
  let lp := psub p m.center
  let lp :=
    if FP_CUTOFF < |m.alpha.to_radians| then rotatePoint lp m.alpha.to_radians
    else lp
  let f := rectLocalField m lp
  if FP_CUTOFF < |m.alpha.to_radians| then rotateField f (-m.alpha.to_radians)
  else f

open Classical in
/-- The transform exactly as claim C1 states it, instantiated to the
rectangle kernel: rotate the translated point by `-alpha` only when
`|alpha mod pi| > FP_CUTOFF`, evaluate the local closed form, and rotate the
resulting field by `+alpha` under the same condition. -/
def rect_transform_claimed (m : Rectangle) (p : Point2) : FPoint2 :=
  let lp := psub p m.center
  let lp :=
    if FP_CUTOFF < |rustRem m.alpha.to_radians PI| then
      rotatePoint lp (-m.alpha.to_radians)
    else lp
  let f := rectLocalField m lp
  if FP_CUTOFF < |rustRem m.alpha.to_radians PI| then
    rotateField f m.alpha.to_radians
  else f

open Classical in
/-- The line kernel's local-frame field (the guarded `sheet_field` term). -/
def lineLocalField (m : Line) (lp : Point2) : FPoint2 :=
  faddP fzeroP
    (if FP_CUTOFF < |m.kr| then
      match sheet_field lp.x lp.y (m.length / 2) m.kr with
      | .ok value => value
      | .error _ => ⟨some 0, some 0⟩
    else ⟨some 0, some 0⟩)

open Classical in
/-- What `get_field_line` does, written with `-beta` in place of the
source's `2π - beta` (the same rotation): rotate the point by `-beta` and
the field back by `+beta`, only when `|beta mod π| > FP_CUTOFF` and
`|kr| > FP_CUTOFF`. -/
def line_transform_actual (m : Line) (p : Point2) : FPoint2 :=
  let cond :=
    FP_CUTOFF < |rustRem m.beta.to_radians PI| ∧ FP_CUTOFF < |m.kr|
  let lp := psub p m.center
  let lp := if cond then rotatePoint lp (-m.beta.to_radians) else lp
  let f := lineLocalField m lp
  if cond then rotateField f m.beta.to_radians else f

/-- The circle kernel's local evaluation: polar shift by the magnetization
angle `phi` and the analytic polar field, converted back at the *unshifted*
polar angle.  The evaluation point itself is never rotated by `alpha`. -/
def circleLocalField (m : Circle) (p : Point2) : FPoint2 :=
  let polar_val := cart2pol (psub p m.center)
  let local_polar : PolarPoint :=
    ⟨polar_val.rho - 0, polar_val.phi - m.phi.to_radians⟩
  match get_polar_field_circle m local_polar with
  | .ok polar_field => vector_pol2cart polar_field polar_val.phi
  | .error _ => ⟨none, none⟩

open Classical in
/-- What `get_field_circle` does, with `-alpha` in place of the source's
`2π - alpha`: the local polar evaluation followed by a field rotation by
`-alpha` when `|alpha| > FP_CUTOFF`. -/
def circle_transform_actual (m : Circle) (p : Point2) : FPoint2 :=
  let f := circleLocalField m p
  if FP_CUTOFF < |m.alpha.to_radians| then rotateField f (-m.alpha.to_radians)
  else f

theorem cos_pi_mul_two_sub (α : ℝ) :
    Real.cos (Real.pi * 2 - α) = Real.cos (-α) := by
  rw [Real.cos_sub, mul_comm Real.pi 2, Real.cos_two_pi, Real.sin_two_pi,
    Real.cos_neg]
  ring

theorem sin_pi_mul_two_sub (α : ℝ) :
    Real.sin (Real.pi * 2 - α) = Real.sin (-α) := by
  rw [Real.sin_sub, mul_comm Real.pi 2, Real.cos_two_pi, Real.sin_two_pi,
    Real.sin_neg]
  ring

theorem rotatePoint_two_pi_sub (q : Point2) (α : ℝ) :
    rotatePoint q (M2_PI - α) = rotatePoint q (-α) := by
  simp only [rotatePoint, M2_PI, PI, cos_pi_mul_two_sub, sin_pi_mul_two_sub]

theorem rotateField_two_pi_sub (f : FPoint2) (α : ℝ) :
    rotateField f (M2_PI - α) = rotateField f (-α) := by
  simp only [rotateField, M2_PI, PI, cos_pi_mul_two_sub, sin_pi_mul_two_sub]

/-- C1 amended: per 2D kernel, `get_field_rectangle` translates by `-center`,
rotates the point by `+alpha` when `|alpha| > FP_CUTOFF` (no `mod π`) and
rotates the field back by `-alpha`; `get_field_line` rotates the point by
`-beta` (as `2π - beta`) when `|beta mod π| > FP_CUTOFF` *and*
`|kr| > FP_CUTOFF`, and rotates the field back by `+beta`;
`get_field_circle` never rotates the evaluation point (the polar angle is
offset by the magnetization angle `phi` instead) and rotates the resulting
field by `-alpha` (as `2π - alpha`) when `|alpha| > FP_CUTOFF`. -/
theorem local_frame_transform_per_kernel :
    (∀ (m : Rectangle) (p : Point2),
      get_field_rectangle m p = .ok (rect_transform_actual m p)) ∧
    (∀ (m : Line) (p : Point2),
      get_field_line m p = .ok (line_transform_actual m p)) ∧
    (∀ (m : Circle) (p : Point2),
      get_field_circle m p = .ok (circle_transform_actual m p)) := by
  refine ⟨fun m p => rfl, fun m p => ?_, fun m p => ?_⟩
  · rw [get_field_line, line_transform_actual, rotatePoint_two_pi_sub]
    rfl
  · simp only [get_field_circle, circle_transform_actual, circleLocalField,
      get_polar_field_circle, rotateField_two_pi_sub]

/-- A square magnet `a = b = 1` at the origin, magnetized in `x`, with
orientation `alpha = π` (a 180° rotation: `|alpha| > FP_CUTOFF` but
`alpha mod π = 0`). -/
def rectPiAligned : Rectangle :=
  ⟨2, 2, ⟨0, 0⟩, .Radians PI, 1, .Radians 0, 1, 1, 1, 0⟩

/-- The evaluation point `(1/2, 0)`. -/
def ptHalf : Point2 := ⟨1 / 2, 0⟩

theorem arctan_eight_pos : 0 < Real.arctan 8 := by
  have h := Real.arctan_strictMono (show (0 : ℝ) < 8 by norm_num)
  rwa [Real.arctan_zero] at h

theorem rectPiAligned_mfx_neg :
    magnetic_field_x rectPiAligned ⟨-(1 / 2), 0⟩ =
      .ok ⟨some (I_2PI * (Real.arctan 8 + Real.arctan 8)), some 0⟩ := by
  have hb : atan2 2 (1 / 4) = Real.arctan 8 := by
    rw [atan2, if_pos (by norm_num)]
    norm_num
  simp only [magnetic_field_x, field_in_x_for_x_mag, field_in_y_for_x_mag,
    rectPiAligned, fmul, fsub, fdiv, fln]
  norm_num [hb]

theorem rectPiAligned_mfx_pos :
    magnetic_field_x rectPiAligned ⟨1 / 2, 0⟩ =
      .ok ⟨some (I_2PI * (Real.arctan 8 + Real.arctan 8)), some 0⟩ := by
  have hb : atan2 2 (1 / 4) = Real.arctan 8 := by
    rw [atan2, if_pos (by norm_num)]
    norm_num
  simp only [magnetic_field_x, field_in_x_for_x_mag, field_in_y_for_x_mag,
    rectPiAligned, fmul, fsub, fdiv, fln]
  norm_num [hb]

/-- C1 counterexample: at `alpha = π` the claim's transform skips both
rotations (`|π mod π| = 0 ≤ FP_CUTOFF`), but `get_field_rectangle` tests
`|alpha|` and rotates the point by `+π` and the field by `-π`; at the point
`(1/2, 0)` the two disagree (the x component flips sign). -/
theorem rect_transform_claim_counterexample :
    get_field_rectangle rectPiAligned ptHalf ≠
      .ok (rect_transform_claimed rectPiAligned ptHalf) := by
  have hcond : FP_CUTOFF < |Angle.to_radians rectPiAligned.alpha| := by
    simp only [rectPiAligned, Angle.to_radians]
    rw [PI, abs_of_pos Real.pi_pos, FP_CUTOFF]
    linarith [Real.pi_gt_three]
  have hguardx : FP_CUTOFF < |rectPiAligned.jx / rectPiAligned.jr| := by
    simp only [rectPiAligned]
    rw [FP_CUTOFF]
    norm_num
  have hguardy : ¬ FP_CUTOFF < |rectPiAligned.jy / rectPiAligned.jr| := by
    simp only [rectPiAligned]
    rw [FP_CUTOFF]
    norm_num
  have hrot : rotatePoint (psub ptHalf rectPiAligned.center)
      (Angle.to_radians rectPiAligned.alpha) = ⟨-(1 / 2), 0⟩ := by
    simp only [rectPiAligned, ptHalf, psub, rotatePoint, Angle.to_radians, PI,
      Real.cos_pi, Real.sin_pi]
    norm_num
  have hpsub : psub ptHalf rectPiAligned.center = ⟨1 / 2, 0⟩ := by
    simp only [ptHalf, rectPiAligned, psub]
    norm_num
  have hact : rect_transform_actual rectPiAligned ptHalf =
      ⟨some (-(I_2PI * (Real.arctan 8 + Real.arctan 8))), some 0⟩ := by
    simp only [rect_transform_actual, rectLocalField, if_pos hcond,
      if_pos hguardx, if_neg hguardy, hrot, rectPiAligned_mfx_neg]
    simp only [rectPiAligned, Angle.to_radians, PI, rotateField, fzeroP,
      faddP, fadd, fmul, fsub, Real.cos_neg, Real.sin_neg, Real.cos_pi,
      Real.sin_pi]
    norm_num
  have hremc : ¬ FP_CUTOFF <
      |rustRem (Angle.to_radians rectPiAligned.alpha) PI| := by
    have hz : rustRem (Angle.to_radians rectPiAligned.alpha) PI = 0 := by
      simp only [rectPiAligned, Angle.to_radians]
      rw [rustRem, div_self (by rw [PI]; exact Real.pi_ne_zero), truncR]
      norm_num
    rw [hz, FP_CUTOFF]
    norm_num
  have hclaim : rect_transform_claimed rectPiAligned ptHalf =
      ⟨some (I_2PI * (Real.arctan 8 + Real.arctan 8)), some 0⟩ := by
    simp only [rect_transform_claimed, rectLocalField, if_neg hremc,
      if_pos hguardx, if_neg hguardy, hpsub, rectPiAligned_mfx_pos]
    simp only [fzeroP, faddP, fadd]
    norm_num
  have hcode : get_field_rectangle rectPiAligned ptHalf =
      .ok (rect_transform_actual rectPiAligned ptHalf) := rfl
  rw [hcode, hact, hclaim]
  intro h
  have hfp := Except.ok.inj h
  have hx := congrArg FPoint2.x hfp
  simp only [Option.some.injEq] at hx
  have hpos : 0 < I_2PI * (Real.arctan 8 + Real.arctan 8) := by
    have h8 := arctan_eight_pos
    have hI : (0 : ℝ) < I_2PI := by
      rw [I_2PI, M2_PI, PI]
      positivity
    nlinarith
  nlinarith [hpos, hx]

/-! ## 3D prism kernel (lodestone_core/src/magnets/magnet3d/prism_field.rs) -/

/-- Embedded `Point3`. -/
structure Point3 where
  x : ℝ
  y : ℝ
  z : ℝ

/-- A 3D field vector with possibly non-finite components. -/
structure FPoint3 where
  x : FV
  y : FV
  z : FV

/-- Embedded `Prism` magnet descriptor (prism.rs lines 34-54). -/
structure Prism where
  width : ℝ
  height : ℝ
  depth : ℝ
  center : Point3
  alpha : Angle
  beta : Angle
  gamma : Angle
  jr : ℝ
  phi : Angle
  theta : Angle
  a : ℝ
  b : ℝ
  c : ℝ
  jx : ℝ
  jy : ℝ
  jz : ℝ

/-- Embedded `_f1` (prism_field.rs lines 92-106): an `atan2` auxiliary; on finite
real inputs the `is_finite` fallback to `0.0` never fires, so the embedding
is the `atan2` value itself. -/
def _f1 (a b c x y z : ℝ) : ℝ :=
  let ax := a + x
  let b_y := b + y
  let cz := c + z
  let top := b_y * cz
  let bottom := ax * Real.sqrt (ax ^ 2 + b_y ^ 2 + cz ^ 2)
  atan2 top bottom

/-- Embedded `_f2` (prism_field.rs lines 109-124): the source only guards
`bottom.is_finite()`, not `bottom != 0`, so a zero denominator still yields
a non-finite ratio (modelled `none`). -/
def _f2 (a b c x y z : ℝ) : FV :=
  let ax_sq := (a + x) ^ 2
  let by_sq := (b + y) ^ 2
  let cz_sq := (c + z) ^ 2
  let cmz_sq := (c - z) ^ 2
  let top := Real.sqrt (ax_sq + by_sq + cmz_sq) + c - x
  let bottom := Real.sqrt (ax_sq + by_sq + cz_sq) - c - z
  fdiv (some top) (some bottom)

/-- Embedded `get_field_x_mag_x` (lines 18-37): eight octant-reflected `_f1` sums. -/
def get_field_x_mag_x (magnet : Prism) (point : Point3) : ℝ :=
  let x := point.x
  let y := point.y
  let z := point.z
  let a := magnet.a
  let b := magnet.b
  let c := magnet.c
  let jr := magnet.jx
  (-(jr * I_4PI)) *
    (_f1 a b c (-x) y z + _f1 a b c (-x) y (-z) + _f1 a b c (-x) (-y) z +
      _f1 a b c (-x) (-y) (-z) + _f1 a b c x y z + _f1 a b c x y (-z) +
      _f1 a b c x (-y) z + _f1 a b c x (-y) (-z))

/-- Embedded `get_field_y_mag_x` (lines 40-52). -/
def get_field_y_mag_x (magnet : Prism) (point : Point3) : FV :=
  let x := point.x
  let y := point.y
  let z := point.z
  let a := magnet.a
  let b := magnet.b
  let c := magnet.c
  let jr := magnet.jx
  let top := fmul (_f2 a b c (-x) (-y) z) (_f2 a b c x y z)
  let bottom := fmul (_f2 a b c (-x) y z) (_f2 a b c x (-y) z)
  fmul (some (jr * I_4PI)) (fln (fdiv top bottom))

/-- Embedded `get_field_z_mag_x` (lines 55-69). -/
def get_field_z_mag_x (magnet : Prism) (point : Point3) : FV :=
  let x := point.x
  let y := point.y
  let z := point.z
  let a := magnet.a
  let b := magnet.b
  let c := magnet.c
  let jr := magnet.jx
  let top := fmul (_f2 a c b (-x) (-z) y) (_f2 a c b x z y)
  let bottom := fmul (_f2 a c b (-x) z y) (_f2 a c b x (-z) y)
  fmul (some (jr * I_4PI)) (fln (fdiv top bottom))

/-- Embedded `prism_field_x` (lines 72-79). -/
def prism_field_x (magnet : Prism) (point : Point3) :
    Except MagnetError FPoint3 :=
  .ok ⟨some (get_field_x_mag_x magnet point), get_field_y_mag_x magnet point,
    get_field_z_mag_x magnet point⟩

/-- Embedded `prism_field_y` (lines 82-89): its body is verbatim that of
`prism_field_x` — it calls the x-magnetization component functions, which
scale by `jx`. -/
def prism_field_y (magnet : Prism) (point : Point3) :
    Except MagnetError FPoint3 :=
  .ok ⟨some (get_field_x_mag_x magnet point), get_field_y_mag_x magnet point,
    get_field_z_mag_x magnet point⟩

/-- C9: for every prism and every evaluation point — in particular when
`jy ≠ jx` — `prism_field_y` returns exactly the same field vector as
`prism_field_x`: both invoke `get_field_x_mag_x`, `get_field_y_mag_x` and
`get_field_z_mag_x`, all scaled by `jx`. -/
theorem prism_field_y_eq_prism_field_x (magnet : Prism) (point : Point3) :
    prism_field_y magnet point = prism_field_x magnet point := rfl

end Lodestone
